import Mathlib

/-!
Shallow embedding of the task-notification program (`main.py`): the task-line
parser, the file scanner, the temporal evaluator, the catch-up scheduler and
the "today's tasks" query, together with theorems settling the specification
claims about them.

Strings are modelled as `List Char`.  Python's `\d` character class is
modelled as the ASCII digits, which are the only digits the downstream
`%H:%M` / `%Y-%m-%d` parsing can produce values from in the inputs this
program handles.  Python `datetime` instants are modelled as a calendar
`Date` plus a time of day; `datetime.now()` arithmetic in the scheduler is
modelled over exact rationals (seconds).
-/

/-- Character strings of the program, modelled as lists of unicode scalars. -/
abbrev Str := List Char

/-- Python `str.strip` whitespace class (the ASCII whitespace characters). -/
def pyWs (c : Char) : Bool :=
  c = ' ' || c = '\t' || c = '\n' || c = '\r' || c = '\x0b' || c = '\x0c'

/-- The clock marker glyph `⏰`. -/
def glyphClock : Char := '⏰'

/-- The reminder-date (hourglass) marker glyph `⏳`. -/
def glyphHour : Char := '⏳'

/-- The due-date (calendar) marker glyph `📅`. -/
def glyphCal : Char := '📅'

/-- Membership in the marker-glyph class `[⏰⏳📅]`. -/
def isGlyph (c : Char) : Bool := c = glyphClock || c = glyphHour || c = glyphCal

/-- Python `s.strip()`: drop leading and trailing whitespace. -/
def strip (s : Str) : Str :=
  ((s.dropWhile pyWs).reverse.dropWhile pyWs).reverse

/-- Python `s.replace(pat, '', 1)`: remove the first occurrence of `pat`. -/
def replaceFirst (pat : Str) : Str → Str
  | [] => []
  | a :: rest =>
    if pat.isPrefixOf (a :: rest) then (a :: rest).drop pat.length
    else a :: replaceFirst pat rest

/-- Python `s.replace(pat, '', fuel-bounded)`: remove every occurrence of `pat`
(used for `str.replace(".md", "")`; the fuel is the string length, which always
suffices because each removal consumes at least one character). -/
def replaceAllF (pat : Str) : Nat → Str → Str
  | _, [] => []
  | 0, s => s
  | f + 1, a :: rest =>
    if !pat.isEmpty && pat.isPrefixOf (a :: rest) then
      replaceAllF pat f ((a :: rest).drop pat.length)
    else a :: replaceAllF pat f rest

/-- Python `s.replace(pat, '')`: remove every occurrence of `pat`. -/
def replaceAll (pat s : Str) : Str := replaceAllF pat s.length s

/-- First whitespace-delimited token of a string: Python
`parts[i+1].split()[0] if parts[i+1] else None` (for the split outputs this
program feeds it, a nonempty string always contains a token). -/
def firstTok (s : Str) : Option Str :=
  if s.isEmpty then none
  else
    let t := (s.dropWhile pyWs).takeWhile (fun c => !pyWs c)
    if t.isEmpty then none else some t

/-- The value-token character class `[\d:-]` of `re.match(r'^[\d:-]+$', value)`. -/
def valueChar (c : Char) : Bool := c.isDigit || c = ':' || c = '-'

/-- Python `value and re.match(r'^[\d:-]+$', value)`: a nonempty token made of
digits, colons and hyphens. -/
def validValue (v : Str) : Bool := !v.isEmpty && v.all valueChar

/-- Split a string at its first marker glyph: `some (before, glyph, after)`. -/
def breakAtGlyph : Str → Option (Str × Char × Str)
  | [] => none
  | a :: rest =>
    if isGlyph a then some ([], a, rest)
    else
      match breakAtGlyph rest with
      | some (x, g, y) => some (a :: x, g, y)
      | none => none

/-- Fuel-bounded worker for `splitMarkers`; the fuel is the string length,
which always suffices because each delimiter consumes at least one character. -/
def splitMarkersF : Nat → Str → List Str
  | 0, cs => [cs]
  | f + 1, cs =>
    match breakAtGlyph cs with
    | none => [cs]
    | some (bef, g, aft) =>
      (bef.reverse.dropWhile pyWs).reverse ::
        ((bef.reverse.takeWhile pyWs).reverse ++ g :: aft.takeWhile pyWs) ::
          splitMarkersF f (aft.dropWhile pyWs)

/-- Python `re.split(r'(\s*[⏰⏳📅]\s*)', content)`: alternating text and
delimiter parts, where each delimiter is a glyph together with the maximal
whitespace runs around it. -/
def splitMarkers (cs : Str) : List Str := splitMarkersF cs.length cs

/-- The captured marker values, keyed by glyph (`elements` in the source). -/
structure Elems where
  clock : Option Str
  hourglass : Option Str
  calendar : Option Str
deriving DecidableEq, Repr

/-- Python `elements[emoji] = value`: record a captured value under its glyph. -/
def Elems.set (e : Elems) (g : Char) (v : Str) : Elems :=
  if g = glyphClock then ⟨some v, e.hourglass, e.calendar⟩
  else if g = glyphHour then ⟨e.clock, some v, e.calendar⟩
  else if g = glyphCal then ⟨e.clock, e.hourglass, some v⟩
  else e

/-- Python `re.match(r'^\s*[⏰⏳📅]\s*$', part)`: recognise a delimiter part and
return its glyph (`part.strip()`). -/
def delimGlyph (p : Str) : Option Char :=
  match p.dropWhile pyWs with
  | [] => none
  | g :: rest => if isGlyph g && rest.all pyWs then some g else none

/-- Fuel-bounded worker for `markerLoop`; every step consumes exactly one list
element, so the list length is exactly enough fuel. -/
def markerLoopF : Nat → List Str → Elems → List Str → Elems × List Str
  | _, [], e, acc => (e, acc)
  | 0, _ :: _, e, acc => (e, acc)
  | f + 1, p :: rest, e, acc =>
    match delimGlyph p with
    | some g =>
      match rest with
      | [] => (e, acc)
      | q :: rest' =>
        match firstTok q with
        | some v =>
          if validValue v then
            markerLoopF f (strip (replaceFirst v q) :: rest') (e.set g v) acc
          else markerLoopF f (q :: rest') e acc
        | none => markerLoopF f (q :: rest') e acc
    | none => markerLoopF f rest e (acc ++ [strip p])

/-- The `for i, part in enumerate(parts)` loop of `parse_task_line`: walk the
split parts; a delimiter part captures the first token of the following part
when that token is made of digits, colons and hyphens (removing it from the
following part), while every other part is stripped and appended to the task
text. -/
def markerLoop (parts : List Str) (e : Elems) (acc : List Str) : Elems × List Str :=
  markerLoopF parts.length parts e acc

/-- Match `\d{1,2}` against exactly two leading digits then `:\d{2}`. -/
def timeTok2 (s : Str) : Option (Str × Str) :=
  match s with
  | a :: b :: c :: d :: e :: rest =>
    if a.isDigit && b.isDigit && c = ':' && d.isDigit && e.isDigit then
      some ([a, b, c, d, e], rest)
    else none
  | _ => none

/-- Match `\d{1,2}` against one leading digit then `:\d{2}`. -/
def timeTok1 (s : Str) : Option (Str × Str) :=
  match s with
  | a :: c :: d :: e :: rest =>
    if a.isDigit && c = ':' && d.isDigit && e.isDigit then
      some ([a, c, d, e], rest)
    else none
  | _ => none

/-- Match the boundary group `(\s+|$)` and return the whitespace it consumes. -/
def boundaryWs (rest : Str) : Option Str :=
  match rest with
  | [] => some []
  | c :: _ => if pyWs c then some (rest.takeWhile pyWs) else none

/-- Python `re.match(r'^(\d{1,2}:\d{2})(\s+|$)', first_part)`: returns
`(group(1), group(0))`, i.e. the time and the full match including the
whitespace the boundary consumed. -/
def inlineGroup (s : Str) : Option (Str × Str) :=
  match timeTok2 s with
  | some (tm, rest) =>
    match boundaryWs rest with
    | some w => some (tm, tm ++ w)
    | none =>
      match timeTok1 s with
      | some (tm1, rest1) =>
        match boundaryWs rest1 with
        | some w1 => some (tm1, tm1 ++ w1)
        | none => none
      | none => none
  | none =>
    match timeTok1 s with
    | some (tm1, rest1) =>
      match boundaryWs rest1 with
      | some w1 => some (tm1, tm1 ++ w1)
      | none => none
    | none => none

/-- Lines 76-81 of the source: if the task text is nonempty extract a leading
inline `H:MM`/`HH:MM` time prefix from its first segment (removing the full
match and stripping the remainder). -/
def applyInline (segs : List Str) : List Str × Option Str :=
  match segs with
  | [] => ([], none)
  | f :: rest =>
    match inlineGroup f with
    | some (tm, g0) => (strip (replaceFirst g0 f) :: rest, some tm)
    | none => (f :: rest, none)

/-- Python `' '.join(xs)`: the segments separated by single spaces. -/
def joinSegs : List Str → Str
  | [] => []
  | [s] => s
  | s :: t :: rest => s ++ ' ' :: joinSegs (t :: rest)

/-- Python `' '.join(filter(None, task_text))`. -/
def joinSp (segs : List Str) : Str :=
  joinSegs (segs.filter (fun s => !s.isEmpty))

/-- Source `is_valid_time`: full match of `\d{1,2}:\d{2}` (purely syntactic,
no range check on the hour or minute values). -/
def is_valid_time (t : Str) : Bool :=
  match t with
  | [a, c, d, e] => a.isDigit && c = ':' && d.isDigit && e.isDigit
  | [a, b, c, d, e] => a.isDigit && b.isDigit && c = ':' && d.isDigit && e.isDigit
  | _ => false

/-- Split a string on a separator character (Python `str.split(sep)` /
the separator structure CPython's `strptime` induces with literal separators). -/
def splitOnChar (c : Char) : Str → List Str
  | [] => [[]]
  | a :: rest =>
    if a = c then [] :: splitOnChar c rest
    else
      match splitOnChar c rest with
      | r :: rs => (a :: r) :: rs
      | [] => [[a]]

/-- Decimal value of a digit string. -/
def digitsToNat (ds : Str) : Nat := ds.foldl (fun n c => n * 10 + (c.toNat - 48)) 0

/-- Calendar date (what `datetime.date` carries). -/
structure Date where
  year : Nat
  month : Nat
  day : Nat
deriving DecidableEq, Repr

/-- Gregorian leap-year rule used by `datetime`. -/
def isLeap (y : Nat) : Bool := (y % 4 = 0 && y % 100 ≠ 0) || y % 400 = 0

/-- Days in a month, as enforced by the `datetime` constructor. -/
def daysInMonth (y m : Nat) : Nat :=
  if m = 2 then (if isLeap y then 29 else 28)
  else if m = 4 || m = 6 || m = 9 || m = 11 then 30 else 31

/-- Model of CPython `datetime.strptime(s, '%Y-%m-%d').date()`: `%Y` is exactly
four digits, `%m` and `%d` are one or two digits (so non-zero-padded values are
accepted), the whole string must be consumed, and the resulting triple must be
a real calendar date (`datetime` raises otherwise). -/
def parseDate (s : Str) : Option Date :=
  match splitOnChar '-' s with
  | [ys, ms, ds] =>
    if ys.length = 4 && ys.all Char.isDigit &&
        !ms.isEmpty && ms.length ≤ 2 && ms.all Char.isDigit &&
        !ds.isEmpty && ds.length ≤ 2 && ds.all Char.isDigit then
      let y := digitsToNat ys
      let m := digitsToNat ms
      let d := digitsToNat ds
      if 1 ≤ y && 1 ≤ m && m ≤ 12 && 1 ≤ d && d ≤ daysInMonth y m then
        some ⟨y, m, d⟩
      else none
    else none
  | _ => none

/-- Source `is_valid_date`: `datetime.strptime(d, '%Y-%m-%d')` succeeds. -/
def is_valid_date (s : Str) : Bool := (parseDate s).isSome

/-- Model of CPython `datetime.strptime(s, '%H:%M').time()`: `%H` is one digit
or a two-digit value up to 23, `%M` is one digit or a two-digit value up to 59,
and the whole string must be consumed. -/
def parseHM (s : Str) : Option (Nat × Nat) :=
  match splitOnChar ':' s with
  | [hs, ms] =>
    if !hs.isEmpty && hs.length ≤ 2 && hs.all Char.isDigit &&
        (hs.length = 1 || digitsToNat hs ≤ 23) &&
        !ms.isEmpty && ms.length ≤ 2 && ms.all Char.isDigit &&
        (ms.length = 1 || digitsToNat ms ≤ 59) then
      some (digitsToNat hs, digitsToNat ms)
    else none
  | _ => none

/-- The resolution chain of lines 96-100 of the source:
`next((t for t in cands if t and is_valid_time(t)), default_time)`. -/
def firstValidTime : List (Option Str) → Str → Str
  | [], dft => dft
  | o :: rest, dft =>
    match o with
    | some t => if !t.isEmpty && is_valid_time t then t else firstValidTime rest dft
    | none => firstValidTime rest dft

/-- Source `final_time`: first valid among clock-glyph value, inline time
prefix and the default, falling back to the default. -/
def finalTime (tc ts : Option Str) (dft : Str) : Str :=
  firstValidTime [tc, ts, some dft] dft

/-- A parsed task record (`{'task': ..., 'time': ..., 'dates': ...}`), with the
`⏳` entry of the dates dict as `predate` and the `📅` entry as `postdate`. -/
structure TaskData where
  task : Str
  time : Str
  predate : Option Str
  postdate : Option Str
deriving DecidableEq, Repr

/-- The literal `- [ ]` checklist box. -/
def boxMark : Str := ['-', ' ', '[', ' ', ']']

/-- Line 53 of the source: `line.strip().split('#')[0].strip()`. -/
def cleanedLine (line0 : Str) : Str :=
  strip ((strip line0).takeWhile (fun c => c != '#'))

/-- Line 58 of the source: `re.sub(r'^- \[ \]\s*', '', line)` (meaningful when
the checklist-box match of line 55 succeeded). -/
def contentOf (line0 : Str) : Str :=
  ((cleanedLine line0).drop 5).dropWhile pyWs

/-- The marker-extraction loop applied to the split content of a line. -/
def loopOut (line0 : Str) : Elems × List Str :=
  markerLoop (splitMarkers (contentOf line0)) ⟨none, none, none⟩ []

/-- The clock-glyph value `elements.get('⏰')` captured from a line. -/
def parsedClock (line0 : Str) : Option Str := (loopOut line0).1.clock

/-- The inline-time extraction applied to a line's task-text segments. -/
def inlineOut (line0 : Str) : List Str × Option Str := applyInline (loopOut line0).2

/-- The inline time prefix `time_start` captured from a line. -/
def parsedInline (line0 : Str) : Option Str := (inlineOut line0).2

/-- The cleaned task text `task_clean` of a line. -/
def taskClean (line0 : Str) : Str := joinSp (inlineOut line0).1

/-- Lines 102-106 of the source: keep a captured date value only if
`is_valid_date` accepts it. -/
def validDateOpt (o : Option Str) : Option Str :=
  match o with
  | some v => if is_valid_date v then some v else none
  | none => none

/-- Source `parse_task_line`: strip comments and whitespace, require the
`- [ ]` checklist box, split on marker glyphs, capture marker values, extract
an inline time prefix, and build the record when the cleaned text is
nonempty. -/
def parse_task_line (line0 : Str) (default_time : Str) : Option TaskData :=
  if boxMark.isPrefixOf (cleanedLine line0) then
    if (taskClean line0).isEmpty then none
    else
      some ⟨taskClean line0,
            finalTime (parsedClock line0) (parsedInline line0) default_time,
            validDateOpt (loopOut line0).1.hourglass,
            validDateOpt (loopOut line0).1.calendar⟩
  else none

/-- Python `f"...{opt}..."` interpolation of an optional string: `None` prints
as the literal text `None`. -/
def pyOptStr (o : Option Str) : Str :=
  match o with
  | none => "None".data
  | some s => s

/-- The pre-notify message template of line 164 of the source. -/
def preMsg (postdate : Option Str) (text : Str) : Str :=
  "⏳ Напоминаю ".data ++ pyOptStr postdate ++ " у вас запланировано:\n\n - ".data ++ text

/-- The due-date message template of line 167 of the source. -/
def dueMsg (text : Str) : Str := "📅 Напоминание:\n\n - ".data ++ text

/-- The plain time-based message template of line 170 of the source. -/
def plainMsg (text : Str) : Str := "⏰ Напоминание:\n\n - ".data ++ text

/-- The `elif postdate ... elif not predate and not postdate` tail of the
classification chain (lines 166-170), reached when the reminder-date branch
did not fire.  A present but unparseable date string models the `ValueError`
the per-task `except` of line 186 absorbs, yielding no message. -/
def classifyPost (pdO odO : Option Str) (text : Str) (cdate : Date) : Option Str :=
  match odO with
  | some od =>
    match parseDate od with
    | none => none
    | some d =>
      if d = cdate then some (dueMsg text)
      else if pdO = none ∧ odO = none then some (plainMsg text) else none
  | none => if pdO = none ∧ odO = none then some (plainMsg text) else none

/-- The per-task body of `process_tasks_for_time` (lines 150-170 plus the
per-task `except` of line 186): parse the resolved time (a failure is caught
and yields no message), require an exact match with the reference time of day
truncated to the minute, then classify with the fixed `if/elif/elif`
precedence. -/
def classify (pdO odO : Option Str) (time_str text : Str) (cdate : Date)
    (ctime : Nat × Nat) : Option Str :=
  match parseHM time_str with
  | none => none
  | some t =>
    if t = ctime then
      match pdO with
      | some pd =>
        match parseDate pd with
        | none => none
        | some d =>
          if d = cdate then some (preMsg odO text)
          else classifyPost pdO odO text cdate
      | none => classifyPost pdO odO text cdate
    else none

/-- The temporal evaluator over a task list: the messages the matching tasks
produce, in task order (each task independently error-isolated). -/
def evalMessages (ts : List TaskData) (cdate : Date) (ctime : Nat × Nat) : List Str :=
  ts.filterMap (fun d => classify d.predate d.postdate d.time d.task cdate ctime)

/-- What reading one configured file can observe: the file is absent, or it
yields a list of lines and then either completes or raises mid-read (an open
failure is the `[]`-lines raising case). -/
inductive ReadResult where
  | missing : ReadResult
  | lines : List Str → Bool → ReadResult
deriving DecidableEq

/-- A scan result entry (`{'file': ..., 'line': ..., 'data': ...}`). -/
structure ScanRec where
  file : Str
  lineNo : Nat
  data : TaskData
deriving DecidableEq, Repr

/-- The per-file body of `check_files` (lines 124-140): a nonexistent file is
skipped; otherwise the lines the read yields before any failure are parsed and
collected with 1-based line numbers, and a mid-read failure (second component
`false`) is caught, keeping the records appended so far. -/
def scanOne (fs : Str → ReadResult) (fp : Str) (dft : Str) : List ScanRec :=
  match fs fp with
  | .missing => []
  | .lines ls _completed =>
    (List.enumFrom 1 ls).filterMap
      (fun p => (parse_task_line p.2 dft).map (fun d => ⟨fp, p.1, d⟩))

/-- Source `check_files`: scan the explicitly configured files, or the
recursive `*.md` enumeration (`mdFiles`) when the configured list is empty;
per-file failures never abort the overall scan. -/
def check_files (fs : Str → ReadResult) (mdFiles files : List Str) (dft : Str) :
    List ScanRec :=
  (if files.isEmpty then mdFiles else files).flatMap (fun fp => scanOne fs fp dft)

/-- Lines 173-176 of the source: the provenance suffix appended to a
notification (the path is the configured name relative to the base directory,
with every `.md` occurrence removed). -/
def fileSuffix (showPath : Bool) (file : Str) : Str :=
  if showPath then "\n📁 Файл: ".data ++ replaceAll ".md".data file else []

/-- One task of `process_tasks_for_time` including provenance suffix and
delivery: `send` tells whether `bot.send_message` succeeds for a message; a
send failure is caught by the per-task `except` and the tick continues. -/
def processTask (showPath : Bool) (send : Str → Bool) (r : ScanRec) (cdate : Date)
    (ctime : Nat × Nat) : Option Str :=
  match classify r.data.predate r.data.postdate r.data.time r.data.task cdate ctime with
  | some msg =>
    let full := msg ++ fileSuffix showPath r.file
    if send full then some full else none
  | none => none

/-- Source `process_tasks_for_time` at one reference instant (given as a
calendar date plus the time of day truncated to the minute): scan the files
and deliver the matching tasks' messages, returning the successfully delivered
ones in task order. -/
def process_tasks_for_time (fs : Str → ReadResult) (mdFiles files : List Str)
    (dft : Str) (showPath : Bool) (send : Str → Bool) (cdate : Date)
    (ctime : Nat × Nat) : List Str :=
  (check_files fs mdFiles files dft).filterMap
    (fun r => processTask showPath send r cdate ctime)

/-- The `for i in range(1, missed + 1)` loop of lines 207-212: the
reconstructed instants `T + i*interval` in ascending order of `i`. -/
def catchTimes (T : ℚ) (interval : ℕ) : ℕ → List ℚ
  | 0 => []
  | n + 1 => catchTimes T interval n ++ [T + ((n : ℚ) + 1) * interval]

/-- The reference instants one tick of `check_and_notify` evaluates, in order:
the reconstructed missed instants when `now - T > interval * 1.5` (with
`missed = int(time_diff // interval)`), then always `now` itself. -/
def refTimesOf (interval : ℕ) (T now : ℚ) : List ℚ :=
  let td := now - T
  (if td > (interval : ℚ) * 1.5 then
    catchTimes T interval (Int.toNat ⌊td / (interval : ℚ)⌋)
  else []) ++ [now]

/-- Source `check_and_notify`, one tick: initialise `last_check_time` to
`now - interval` on a cold start, run the full scan + evaluate + deliver
pipeline for every reference instant of the tick (`dateOf`/`todOf` abstract
the calendar fields of a `datetime` instant), and finish with
`last_check_time = now`.  Returns the delivered messages and the new
`last_check_time`. -/
def check_and_notify (interval : ℕ) (fs : Str → ReadResult) (mdFiles files : List Str)
    (dft : Str) (showPath : Bool) (send : Str → Bool) (dateOf : ℚ → Date)
    (todOf : ℚ → Nat × Nat) (last : Option ℚ) (now : ℚ) : List Str × ℚ :=
  let T := match last with
    | none => now - interval
    | some t => t
  let refs := refTimesOf interval T now
  (refs.flatMap
    (fun t => process_tasks_for_time fs mdFiles files dft showPath send (dateOf t) (todOf t)),
   now)

/-- Time of day as carried by Python `datetime.time` (hour, minute, second,
microsecond); tuples compare lexicographically. -/
structure TOD where
  hour : Nat
  minute : Nat
  sec : Nat
  usec : Nat
deriving DecidableEq, Repr

/-- Python `time` comparison `a <= b` (lexicographic on the four fields). -/
def todLe (a b : TOD) : Bool :=
  a.hour < b.hour ||
    (a.hour = b.hour && (a.minute < b.minute ||
      (a.minute = b.minute && (a.sec < b.sec ||
        (a.sec = b.sec && a.usec ≤ b.usec)))))

/-- The `is_today` selection of `show_scheduled_tasks` (lines 281-296): a task
is listed when its reminder date or its due date equals today (regardless of
its time), or, when it has no dates, when its time parses and is not earlier
than the current time of day (`task_time >= datetime.now().time()`; a time
parse failure is swallowed by the inner `try`).  `none` models the uncaught
`ValueError` a present-but-unparseable date string would raise (unreachable
for scanner-produced records). -/
def show_is_today (data : TaskData) (today : Date) (nowT : TOD) : Option Bool :=
  let pdPart : Option Bool :=
    match data.predate with
    | none => some false
    | some pd =>
      match parseDate pd with
      | none => none
      | some d => some (decide (d = today))
  let odPart : Option Bool :=
    match data.postdate with
    | none => some false
    | some od =>
      match parseDate od with
      | none => none
      | some d => some (decide (d = today))
  match pdPart, odPart with
  | none, _ => none
  | some _, none => none
  | some b1, some b2 =>
    if data.predate = none ∧ data.postdate = none then
      some (b1 || b2 ||
        (match parseHM data.time with
         | some t => todLe nowT ⟨t.1, t.2, 0, 0⟩
         | none => false))
    else some (b1 || b2)

/-- The response header `"📅 <b>Задачи на сегодня:</b>\n"` of line 273. -/
def showHeader : Str := "📅 <b>Задачи на сегодня:</b>\n".data

/-- The empty-selection message `"\n✅ На сегодня задач нет!"` of line 313. -/
def noTasksMsg : Str := "\n✅ На сегодня задач нет!".data

/-- The per-task display block of lines 298-310. -/
def taskInfo (showPath : Bool) (r : ScanRec) : Str :=
  "⏰ ".data ++ r.data.time ++ " - ".data ++ r.data.task ++ "\n".data ++
    (if showPath then "\n📁 Файл: ".data ++ replaceAll ".md".data r.file ++ " \n".data
     else []) ++
    "━━━━━━━━━━━━━━━━━━━━━━".data

/-- The response-building loop of `show_scheduled_tasks`: append the selected
tasks' blocks to the header; `none` models an uncaught date-parse error. -/
def showGo (today : Date) (nowT : TOD) (showPath : Bool) :
    List ScanRec → List Str → Option (List Str)
  | [], acc => some (if acc.length = 1 then acc ++ [noTasksMsg] else acc)
  | t :: rest, acc =>
    match show_is_today t.data today nowT with
    | none => none
    | some true => showGo today nowT showPath rest (acc ++ [taskInfo showPath t])
    | some false => showGo today nowT showPath rest acc

/-- Source `show_scheduled_tasks` response lines: header, selected task blocks,
and the "nothing scheduled" message when no task was selected. -/
def show_response (tasks : List ScanRec) (today : Date) (nowT : TOD)
    (showPath : Bool) : Option (List Str) :=
  showGo today nowT showPath tasks [showHeader]

/-- Spec wording of the time-resolution order (section 4.1 step 7): prefer the
clock-glyph value if valid, else the inline time prefix if valid, else the
supplied default with no validation applied to it. -/
def timeResolutionSpec (tc ts : Option Str) (dft : Str) : Str :=
  match tc with
  | some t =>
    if is_valid_time t then t
    else
      match ts with
      | some u => if is_valid_time u then u else dft
      | none => dft
  | none =>
    match ts with
    | some u => if is_valid_time u then u else dft
    | none => dft

/-- Whether an optional date string is present, parseable and equal to the
reference date. -/
def dateHits (o : Option Str) (cdate : Date) : Bool :=
  match o with
  | some v =>
    match parseDate v with
    | some d => decide (d = cdate)
    | none => false
  | none => false

/-- Spec wording of the classification precedence (section 4.3 step 3):
pre-notify if the reminder date equals the reference date, else due if the due
date equals it, else plain only when neither date is present, else nothing. -/
def specClassify (pdO odO : Option Str) (text : Str) (cdate : Date) : Option Str :=
  if dateHits pdO cdate then some (preMsg odO text)
  else if dateHits odO cdate then some (dueMsg text)
  else if pdO = none ∧ odO = none then some (plainMsg text)
  else none

/-- The selection predicate the query surface actually applies: a date equal to
today (regardless of the task's time), or, for dateless tasks, a parseable time
not earlier than the current time of day. -/
def specShowSelect (d : TaskData) (today : Date) (nowT : TOD) : Bool :=
  dateHits d.predate today || dateHits d.postdate today ||
    (d.predate.isNone && d.postdate.isNone &&
      (match parseHM d.time with
       | some t => todLe nowT ⟨t.1, t.2, 0, 0⟩
       | none => false))

/-- The zero-padded `YYYY-MM-DD` shape denoting a real calendar date. -/
def strictIsoDate (s : Str) : Bool :=
  match s with
  | [y1, y2, y3, y4, h1, m1, m2, h2, d1, d2] =>
    y1.isDigit && y2.isDigit && y3.isDigit && y4.isDigit &&
      h1 = '-' && h2 = '-' && m1.isDigit && m2.isDigit && d1.isDigit && d2.isDigit &&
      (1 ≤ digitsToNat [y1, y2, y3, y4] && 1 ≤ digitsToNat [m1, m2] &&
        digitsToNat [m1, m2] ≤ 12 && 1 ≤ digitsToNat [d1, d2] &&
        digitsToNat [d1, d2] ≤ daysInMonth (digitsToNat [y1, y2, y3, y4]) (digitsToNat [m1, m2]))
  | _ => false

lemma catchTimes_eq_map (T : ℚ) (I : ℕ) (n : ℕ) :
    catchTimes T I n = (List.range n).map (fun i : ℕ => T + ((i : ℚ) + 1) * I) := by
  induction n with
  | zero => rfl
  | succ n ih => simp [catchTimes, ih, List.range_succ]

/-- Claim C1: on a tick with `now - last_check_time > 1.5 * interval`, the
scheduler computes `missed = floor((now - T) / interval)` and runs the
pipeline once for each reconstructed instant `T + i*interval`, `i = 1..missed`
in ascending order, then once more for `now`. -/
theorem catchup_reconstructs_missed_instants (I : ℕ) (T now : ℚ)
    (hI : 1 ≤ I) (h : now - T > (I : ℚ) * 1.5) :
    refTimesOf I T now =
      ((List.range (Int.toNat ⌊(now - T) / (I : ℚ)⌋)).map
        (fun i : ℕ => T + ((i : ℚ) + 1) * I)) ++ [now]
    ∧ (catchTimes T I (Int.toNat ⌊(now - T) / (I : ℚ)⌋)).Pairwise (· < ·) := by
  constructor
  · simp only [refTimesOf, if_pos h, catchTimes_eq_map]
  · rw [catchTimes_eq_map]
    have hI0 : (0 : ℚ) < I := by exact_mod_cast hI
    refine List.Pairwise.map _ (fun a b hab => ?_) (List.pairwise_lt_range _)
    have hab' : ((a : ℚ) + 1) < (b : ℚ) + 1 := by exact_mod_cast Nat.succ_lt_succ hab
    nlinarith

theorem catchup_reconstructs_missed_instants_witness :
    ((1 ≤ 60) ∧ ((185 : ℚ) - 0 > (60 : ℚ) * 1.5)) ∧
      refTimesOf 60 0 185 = [(60 : ℚ), 120, 180, 185] := by
  have h := catchup_reconstructs_missed_instants 60 0 185 (by norm_num) (by norm_num)
  refine ⟨⟨by norm_num, by norm_num⟩, ?_⟩
  rw [h.1]
  have h3 : Int.toNat ⌊((185 : ℚ) - 0) / ((60 : ℕ) : ℚ)⌋ = 3 := by
    have hf : ⌊((185 : ℚ) - 0) / ((60 : ℕ) : ℚ)⌋ = 3 := by norm_num
    rw [hf]
    rfl
  rw [h3]
  simp [List.range_succ]
  norm_num

/-- Claim C2: every tick of `check_and_notify` ends with
`last_check_time = now`, for every file-system state (including files whose
reads fail), every delivery outcome and every task content — the per-file and
per-task `except` handlers absorb scanning and evaluation errors before the
final assignment. -/
theorem tick_sets_last_check_unconditionally (I : ℕ) (fs : Str → ReadResult)
    (mdFiles files : List Str) (dft : Str) (sp : Bool) (send : Str → Bool)
    (dateOf : ℚ → Date) (todOf : ℚ → Nat × Nat) (last : Option ℚ) (now : ℚ) :
    (check_and_notify I fs mdFiles files dft sp send dateOf todOf last now).2 = now := rfl

/-- Claim C8: time validation is purely syntactic, so `73:99` is accepted and
becomes the record's resolved time; `strptime('%H:%M')` then fails on it, the
failure is caught per task, and the task produces no notification while other
tasks are still evaluated. -/
theorem syntactic_time_skipped_at_eval :
    is_valid_time ("73:99".data) = true
    ∧ parse_task_line ("- [ ] Meet Anna ⏰ 73:99".data) ("08:00".data)
        = some ⟨"Meet Anna".data, "73:99".data, none, none⟩
    ∧ parseHM ("73:99".data) = none
    ∧ (∀ (pdO odO : Option Str) (text : Str) (cdate : Date) (ctime : Nat × Nat),
        classify pdO odO ("73:99".data) text cdate ctime = none)
    ∧ (∀ (rest : List TaskData) (cdate : Date) (ctime : Nat × Nat),
        evalMessages (⟨"Meet Anna".data, "73:99".data, none, none⟩ :: rest) cdate ctime
          = evalMessages rest cdate ctime) := by
  have hhm : parseHM ("73:99".data) = none := by decide
  refine ⟨by decide, by decide, hhm, fun pdO odO text cdate ctime => by simp [classify, hhm],
    fun rest cdate ctime => ?_⟩
  simp [evalMessages, List.filterMap_cons, classify, hhm]

/-- Claim C9: a task whose reminder date equals the reference date and whose
time matches fires the pre-notify variant even with no due date, and then the
message embeds the missing due date as the literal text `None`. -/
theorem prenotify_fires_without_due_date (text ts pd : Str) (cdate : Date)
    (ctime : Nat × Nat) (hm : parseHM ts = some ctime)
    (hd : parseDate pd = some cdate) :
    classify (some pd) none ts text cdate ctime = some (preMsg none text)
    ∧ "None".data <:+: preMsg none text := by
  refine ⟨by simp [classify, hm, hd], ?_⟩
  exact ⟨"⏳ Напоминаю ".data, " у вас запланировано:\n\n - ".data ++ text,
    by simp [preMsg, pyOptStr]⟩

theorem prenotify_fires_without_due_date_witness :
    (parseHM ("10:00".data) = some (10, 0)
      ∧ parseDate ("2025-03-01".data) = some ⟨2025, 3, 1⟩)
    ∧ (classify (some ("2025-03-01".data)) none ("10:00".data) ("Dentist".data)
          ⟨2025, 3, 1⟩ (10, 0) = some (preMsg none ("Dentist".data))
      ∧ "None".data <:+: preMsg none ("Dentist".data)) :=
  ⟨⟨by decide, by decide⟩,
    prenotify_fires_without_due_date ("Dentist".data) ("10:00".data)
      ("2025-03-01".data) ⟨2025, 3, 1⟩ (10, 0) (by decide) (by decide)⟩

/-- Claim C3: for a task whose resolved time matches the reference instant's
time of day (truncated to the minute) and whose present date strings parse (as
all scanner-produced ones do), the classification follows the fixed
precedence pre-notify / due / plain-only-if-dateless, produces nothing when a
date is present but neither equals the reference date, and never produces more
than one variant (the result is a single optional message). -/
theorem evaluator_fixed_precedence (pdO odO : Option Str) (ts text : Str)
    (cdate : Date) (ctime : Nat × Nat) (hm : parseHM ts = some ctime)
    (hpd : ∀ pd, pdO = some pd → (parseDate pd).isSome = true)
    (hod : ∀ od, odO = some od → (parseDate od).isSome = true) :
    classify pdO odO ts text cdate ctime = specClassify pdO odO text cdate := by
  cases pdO with
  | none =>
    cases odO with
    | none => simp [classify, hm, classifyPost, specClassify, dateHits]
    | some od =>
      obtain ⟨d2, hd2⟩ := Option.isSome_iff_exists.mp (hod od rfl)
      by_cases h2 : d2 = cdate <;>
        simp [classify, hm, classifyPost, specClassify, dateHits, hd2, h2]
  | some pd =>
    obtain ⟨d1, hd1⟩ := Option.isSome_iff_exists.mp (hpd pd rfl)
    by_cases h1 : d1 = cdate
    · simp [classify, hm, specClassify, dateHits, hd1, h1]
    · cases odO with
      | none => simp [classify, hm, classifyPost, specClassify, dateHits, hd1, h1]
      | some od =>
        obtain ⟨d2, hd2⟩ := Option.isSome_iff_exists.mp (hod od rfl)
        by_cases h2 : d2 = cdate <;>
          simp [classify, hm, classifyPost, specClassify, dateHits, hd1, h1, hd2, h2]

theorem evaluator_fixed_precedence_witness :
    (parseHM ("10:30".data) = some (10, 30)
      ∧ (∀ pd, (some ("2025-03-01".data) : Option Str) = some pd →
          (parseDate pd).isSome = true)
      ∧ (∀ od, (some ("2025-03-05".data) : Option Str) = some od →
          (parseDate od).isSome = true))
    ∧ classify (some ("2025-03-01".data)) (some ("2025-03-05".data)) ("10:30".data)
        ("Call".data) ⟨2025, 3, 1⟩ (10, 30)
      = specClassify (some ("2025-03-01".data)) (some ("2025-03-05".data))
          ("Call".data) ⟨2025, 3, 1⟩ := by
  refine ⟨⟨by decide, fun pd h => ?_, fun od h => ?_⟩, ?_⟩
  · injection h with h2; rw [← h2]; decide
  · injection h with h2; rw [← h2]; decide
  · exact evaluator_fixed_precedence _ _ _ _ _ _ (by decide)
      (fun pd h => by injection h with h2; rw [← h2]; decide)
      (fun od h => by injection h with h2; rw [← h2]; decide)

lemma isDigit_ne_dash {c : Char} (h : c.isDigit = true) : ¬ c = '-' := by
  intro he
  subst he
  exact absurd h (by decide)

lemma splitOnChar_strict10 (y1 y2 y3 y4 m1 m2 d1 d2 : Char)
    (h1 : ¬ y1 = '-') (h2 : ¬ y2 = '-') (h3 : ¬ y3 = '-') (h4 : ¬ y4 = '-')
    (h5 : ¬ m1 = '-') (h6 : ¬ m2 = '-') (h7 : ¬ d1 = '-') (h8 : ¬ d2 = '-') :
    splitOnChar '-' [y1, y2, y3, y4, '-', m1, m2, '-', d1, d2]
      = [[y1, y2, y3, y4], [m1, m2], [d1, d2]] := by
  simp [splitOnChar, h1, h2, h3, h4, h5, h6, h7, h8]

/-- Claim C10: a captured date token is kept exactly when the modelled
`strptime('%Y-%m-%d')` parses it, so the non-zero-padded `2025-3-1` is a valid
reminder/due date, every zero-padded real calendar date is accepted too, and
acceptance is strictly looser than the literal `YYYY-MM-DD` shape. -/
theorem date_validation_accepts_nonpadded :
    is_valid_date ("2025-3-1".data) = true
    ∧ strictIsoDate ("2025-3-1".data) = false
    ∧ (∀ s : Str, strictIsoDate s = true → is_valid_date s = true)
    ∧ parse_task_line ("- [ ] Call mom ⏳ 2025-3-1".data) ("08:00".data)
        = some ⟨"Call mom".data, "08:00".data, some ("2025-3-1".data), none⟩ := by
  refine ⟨by decide, by decide, ?_, by decide⟩
  intro s hs
  unfold strictIsoDate at hs
  split at hs
  case _ y1 y2 y3 y4 h1 m1 m2 h2 d1 d2 =>
    simp only [Bool.and_eq_true, decide_eq_true_eq] at hs
    obtain ⟨⟨⟨⟨⟨⟨⟨⟨⟨⟨hy1, hy2⟩, hy3⟩, hy4⟩, hh1⟩, hh2⟩, hm1⟩, hm2⟩, hd1⟩, hd2⟩, hv⟩ := hs
    subst hh1
    subst hh2
    simp only [is_valid_date, parseDate,
      splitOnChar_strict10 y1 y2 y3 y4 m1 m2 d1 d2 (isDigit_ne_dash hy1)
        (isDigit_ne_dash hy2) (isDigit_ne_dash hy3) (isDigit_ne_dash hy4)
        (isDigit_ne_dash hm1) (isDigit_ne_dash hm2) (isDigit_ne_dash hd1)
        (isDigit_ne_dash hd2)]
    simp [List.all, hy1, hy2, hy3, hy4, hm1, hm2, hd1, hd2, hv]
  case _ => exact absurd hs (by decide)

theorem date_validation_accepts_nonpadded_witness :
    (strictIsoDate ("2025-03-01".data) = true)
    ∧ is_valid_date ("2025-03-01".data) = true :=
  ⟨by decide, date_validation_accepts_nonpadded.2.2.1 ("2025-03-01".data) (by decide)⟩

/-- Claim C4 counterexample: a task with due date equal to today and time
`23:59` is selected by the "tasks for today" query at midnight (date-only
match), while the evaluator's classification at the corresponding reference
instant (today, minute `00:00`) produces no notification — the query does not
apply the evaluator's date/time-match predicate. -/
theorem show_query_differs_from_evaluator_cx :
    show_is_today ⟨"Watch finale".data, "23:59".data, none, some ("2025-03-01".data)⟩
        ⟨2025, 3, 1⟩ ⟨0, 0, 0, 0⟩ = some true
    ∧ classify none (some ("2025-03-01".data)) ("23:59".data) ("Watch finale".data)
        ⟨2025, 3, 1⟩ (0, 0) = none := ⟨by decide, by decide⟩

lemma showGo_all_unselected (today : Date) (nowT : TOD) (sp : Bool) :
    ∀ (tasks : List ScanRec) (acc : List Str),
      (∀ t ∈ tasks, show_is_today t.data today nowT = some false) →
      showGo today nowT sp tasks acc
        = some (if acc.length = 1 then acc ++ [noTasksMsg] else acc) := by
  intro tasks
  induction tasks with
  | nil => intro acc h; rfl
  | cons t rest ih =>
    intro acc h
    have ht := h t (List.mem_cons_self t rest)
    simp only [showGo, ht]
    exact ih acc (fun t2 ht2 => h t2 (List.mem_cons_of_mem _ ht2))

/-- Claim C4 amended: the query selects a task iff a reminder or due date
equals today (regardless of the task's time), or the task has no dates and its
time parses and is not earlier than the current time of day; and when nothing
is selected the response is the header plus the "nothing scheduled"
message. -/
theorem show_query_selection_amended :
    (∀ (d : TaskData) (today : Date) (nowT : TOD),
      (∀ pd, d.predate = some pd → (parseDate pd).isSome = true) →
      (∀ od, d.postdate = some od → (parseDate od).isSome = true) →
      show_is_today d today nowT = some (specShowSelect d today nowT))
    ∧ (∀ (tasks : List ScanRec) (today : Date) (nowT : TOD) (sp : Bool),
      (∀ t ∈ tasks, show_is_today t.data today nowT = some false) →
      show_response tasks today nowT sp = some [showHeader, noTasksMsg]) := by
  constructor
  · intro d today nowT hpd hod
    cases hp : d.predate with
    | none =>
      cases ho : d.postdate with
      | none => simp [show_is_today, specShowSelect, dateHits, hp, ho]
      | some od =>
        obtain ⟨d2, hd2⟩ := Option.isSome_iff_exists.mp (hod od ho)
        simp [show_is_today, specShowSelect, dateHits, hp, ho, hd2]
    | some pd =>
      obtain ⟨d1, hd1⟩ := Option.isSome_iff_exists.mp (hpd pd hp)
      cases ho : d.postdate with
      | none => simp [show_is_today, specShowSelect, dateHits, hp, ho, hd1]
      | some od =>
        obtain ⟨d2, hd2⟩ := Option.isSome_iff_exists.mp (hod od ho)
        simp [show_is_today, specShowSelect, dateHits, hp, ho, hd1, hd2]
  · intro tasks today nowT sp h
    rw [show_response, showGo_all_unselected today nowT sp tasks [showHeader] h]
    rfl

theorem show_query_selection_amended_witness :
    (show_is_today ⟨"X".data, "10:30".data, none, none⟩ ⟨2025, 3, 1⟩ ⟨11, 0, 0, 0⟩
        = some (specShowSelect ⟨"X".data, "10:30".data, none, none⟩ ⟨2025, 3, 1⟩
            ⟨11, 0, 0, 0⟩))
    ∧ show_response [⟨"f.md".data, 1, ⟨"X".data, "10:30".data, none, none⟩⟩]
        ⟨2025, 3, 1⟩ ⟨11, 0, 0, 0⟩ true = some [showHeader, noTasksMsg] := by
  constructor
  · exact show_query_selection_amended.1 _ _ _ (fun pd h => by cases h)
      (fun od h => by cases h)
  · refine show_query_selection_amended.2 _ _ _ _ ?_
    intro t ht
    have h2 : t = ⟨"f.md".data, 1, ⟨"X".data, "10:30".data, none, none⟩⟩ := by
      simpa using ht
    subst h2
    decide

/-- Claim C7 counterexample: a configured file whose read raises after
yielding one task line still contributes that record — a read failure does not
leave the file's contribution empty, it truncates it at the failure point. -/
theorem scan_read_failure_partial_cx :
    (fun p => if p = ("a.md".data) then
        ReadResult.lines [("- [ ] Wash car ⏰ 10:00".data)] false
      else ReadResult.missing) ("a.md".data)
      = ReadResult.lines [("- [ ] Wash car ⏰ 10:00".data)] false
    ∧ scanOne
        (fun p => if p = ("a.md".data) then
            ReadResult.lines [("- [ ] Wash car ⏰ 10:00".data)] false
          else ReadResult.missing)
        ("a.md".data) ("08:00".data)
      = [⟨"a.md".data, 1, ⟨"Wash car".data, "10:00".data, none, none⟩⟩] :=
  ⟨by decide, by decide⟩

/-- Claim C7 amended: the scan is total and error-isolated per file — each
configured file's contribution is independent of the others, a missing file
contributes zero records, a file whose read fails contributes exactly the
records parsed from the lines read before the failure (zero when it fails at
open), and an empty file set yields an empty result. -/
theorem scan_error_isolation_amended :
    (∀ (fs : Str → ReadResult) (mdFiles : List Str) (f : Str) (rest : List Str)
        (dft : Str),
      check_files fs mdFiles (f :: rest) dft
        = scanOne fs f dft ++ rest.flatMap (fun fp => scanOne fs fp dft))
    ∧ (∀ (fs : Str → ReadResult) (f dft : Str),
        fs f = ReadResult.missing → scanOne fs f dft = [])
    ∧ (∀ (fs : Str → ReadResult) (f dft : Str) (ls : List Str),
        fs f = ReadResult.lines ls false →
        scanOne fs f dft
          = (List.enumFrom 1 ls).filterMap
              (fun p => (parse_task_line p.2 dft).map
                (fun d => (⟨f, p.1, d⟩ : ScanRec))))
    ∧ (∀ (fs : Str → ReadResult) (dft : Str), check_files fs [] [] dft = []) := by
  refine ⟨?_, ?_, ?_, ?_⟩
  · intro fs md f rest dft
    simp [check_files]
  · intro fs f dft h
    simp [scanOne, h]
  · intro fs f dft ls h
    simp [scanOne, h]
  · intro fs dft
    rfl

theorem scan_error_isolation_amended_witness :
    ((fun _ : Str => ReadResult.missing) ("b.md".data) = ReadResult.missing)
    ∧ scanOne (fun _ : Str => ReadResult.missing) ("b.md".data) ("08:00".data) = [] :=
  ⟨rfl, scan_error_isolation_amended.2.1 _ _ _ rfl⟩

lemma band_nonempty_valid (t : Str) : (!t.isEmpty && is_valid_time t) = is_valid_time t := by
  cases t <;> simp [is_valid_time]

lemma finalTime_eq_spec (tc ts : Option Str) (dft : Str) :
    finalTime tc ts dft = timeResolutionSpec tc ts dft := by
  cases tc <;> cases ts <;>
    simp [finalTime, firstValidTime, timeResolutionSpec, band_nonempty_valid]

/-- Claim C5: for every line the parser accepts, the record's time is the
first valid value among clock-glyph capture, inline time prefix and the
supplied default, and when neither of the first two is a valid time the result
is the default unchanged, with no validation applied to it. -/
theorem final_time_resolution_order (line0 dft : Str) (r : TaskData)
    (h : parse_task_line line0 dft = some r) :
    r.time = timeResolutionSpec (parsedClock line0) (parsedInline line0) dft := by
  unfold parse_task_line at h
  split at h
  · split at h
    · exact absurd h (by simp)
    · injection h with h2
      rw [← h2]
      exact finalTime_eq_spec _ _ _
  · exact absurd h (by simp)

theorem final_time_resolution_order_witness :
    parse_task_line ("- [ ] Pay rent".data) ("zz".data)
      = some ⟨"Pay rent".data, "zz".data, none, none⟩
    ∧ (⟨"Pay rent".data, "zz".data, none, none⟩ : TaskData).time
      = timeResolutionSpec (parsedClock ("- [ ] Pay rent".data))
          (parsedInline ("- [ ] Pay rent".data)) ("zz".data) :=
  ⟨by decide, final_time_resolution_order _ _ _ (by decide)⟩

lemma markerLoop_delim_badtok (p q : Str) (rest : List Str) (g : Char) (v : Str)
    (e : Elems) (acc : List Str) (hp : delimGlyph p = some g)
    (hq : firstTok q = some v) (hv : validValue v = false) :
    markerLoop (p :: q :: rest) e acc = markerLoop (q :: rest) e acc := by
  simp [markerLoop, markerLoopF, hp, hq, hv]

lemma markerLoop_text_step (p : Str) (rest : List Str) (e : Elems) (acc : List Str)
    (hp : delimGlyph p = none) :
    markerLoop (p :: rest) e acc = markerLoop rest e (acc ++ [strip p]) := by
  simp [markerLoop, markerLoopF, hp]

lemma markerLoopF_acc_prefix (f : ℕ) :
    ∀ (l : List Str) (e : Elems) (acc : List Str),
      ∃ b, (markerLoopF f l e acc).2 = acc ++ b := by
  induction f with
  | zero =>
    intro l e acc
    cases l <;> exact ⟨[], by simp [markerLoopF]⟩
  | succ f ih =>
    intro l e acc
    cases l with
    | nil => exact ⟨[], by simp [markerLoopF]⟩
    | cons p rest =>
      cases hp : delimGlyph p with
      | some g =>
        cases rest with
        | nil => exact ⟨[], by simp [markerLoopF, hp]⟩
        | cons q rest2 =>
          cases hq : firstTok q with
          | some v =>
            by_cases hv : validValue v = true
            · obtain ⟨b, hb⟩ := ih (strip (replaceFirst v q) :: rest2) (e.set g v) acc
              exact ⟨b, by simp [markerLoopF, hp, hq, hv, hb]⟩
            · obtain ⟨b, hb⟩ := ih (q :: rest2) e acc
              have hv2 : validValue v = false := by simpa using hv
              exact ⟨b, by simp [markerLoopF, hp, hq, hv2, hb]⟩
          | none =>
            obtain ⟨b, hb⟩ := ih (q :: rest2) e acc
            exact ⟨b, by simp [markerLoopF, hp, hq, hb]⟩
      | none =>
        obtain ⟨b, hb⟩ := ih rest e (acc ++ [strip p])
        exact ⟨[strip p] ++ b, by simp [markerLoopF, hp, hb]⟩

lemma pyWs_cases {c : Char} (h : pyWs c = true) :
    c = ' ' ∨ c = '\t' ∨ c = '\n' ∨ c = '\r' ∨ c = '\x0b' ∨ c = '\x0c' := by
  simpa [pyWs, or_assoc] using h

lemma pyWs_not_digit {c : Char} (h : pyWs c = true) : c.isDigit = false := by
  rcases pyWs_cases h with h1 | h1 | h1 | h1 | h1 | h1 <;> subst h1 <;> decide

lemma pyWs_ne_colon {c : Char} (h : pyWs c = true) : ¬ c = ':' := by
  intro he
  subst he
  exact absurd h (by decide)

lemma dropWhile_shape (p : Char → Bool) (l : Str) :
    l.dropWhile p = [] ∨ ∃ c t, l.dropWhile p = c :: t ∧ p c = false := by
  induction l with
  | nil => exact Or.inl rfl
  | cons a l ih =>
    by_cases h : p a = true
    · simpa [List.dropWhile_cons, h] using ih
    · right
      exact ⟨a, l, by simp [List.dropWhile_cons, h], by simpa using h⟩

lemma firstTok_parts (q v : Str) (h : firstTok q = some v) :
    v ≠ [] ∧ (∀ c ∈ v, pyWs c = false) ∧
      ∃ t, strip q = v ++ t ∧ (t = [] ∨ ∃ c t2, t = c :: t2 ∧ pyWs c = true) := by
  unfold firstTok at h
  split at h
  · exact absurd h (by simp)
  · dsimp only at h
    split at h
    · exact absurd h (by simp)
    next h2 =>
      injection h with h3
      have hvne : v ≠ [] := by
        intro he
        rw [h3, he] at h2
        exact h2 rfl
      have hmem : ∀ c ∈ v, pyWs c = false := by
        intro c hc
        rw [← h3] at hc
        have := List.mem_takeWhile_imp hc
        simpa using this
      refine ⟨hvne, hmem, ?_⟩
      have hudecomp :
          q.dropWhile pyWs = v ++ (q.dropWhile pyWs).dropWhile (fun c => !pyWs c) := by
        conv_lhs => rw [← List.takeWhile_append_dropWhile (fun c => !pyWs c) (q.dropWhile pyWs)]
        rw [h3]
      obtain ⟨vc, vr, hvr⟩ : ∃ vc vr, v.reverse = vc :: vr := by
        cases hvrev : v.reverse with
        | nil => exact absurd (by simpa using hvrev) hvne
        | cons a b => exact ⟨a, b, rfl⟩
      have hvc : pyWs vc = false := by
        refine hmem vc ?_
        rw [← List.mem_reverse, hvr]
        exact List.mem_cons_self _ _
      have hvrevdrop : v.reverse.dropWhile pyWs = v.reverse := by
        rw [hvr]
        simp [List.dropWhile_cons, hvc]
      set w := (q.dropWhile pyWs).dropWhile (fun c => !pyWs c) with hw
      have hurev : (q.dropWhile pyWs).reverse = w.reverse ++ v.reverse := by
        conv_lhs => rw [hudecomp]
        exact List.reverse_append _ _
      have hstr : strip q = ((w.reverse ++ v.reverse).dropWhile pyWs).reverse := by
        unfold strip
        rw [hurev]
      rw [List.dropWhile_append] at hstr
      by_cases he : (w.reverse.dropWhile pyWs).isEmpty = true
      · rw [if_pos he, hvrevdrop, List.reverse_reverse] at hstr
        exact ⟨[], by rw [hstr, List.append_nil], Or.inl rfl⟩
      · rw [if_neg he, List.reverse_append, List.reverse_reverse] at hstr
        refine ⟨(w.reverse.dropWhile pyWs).reverse, hstr, ?_⟩
        rcases dropWhile_shape (fun c => !pyWs c) (q.dropWhile pyWs) with hwnil | ⟨wc, w2, hwc, hwcp⟩
        · exfalso
          apply he
          rw [← hw] at hwnil
          rw [hwnil]
          simp
        · rw [← hw] at hwc
          have hwcw : pyWs wc = true := by simpa using hwcp
          have hsuf : w.reverse.dropWhile pyWs <:+ w.reverse := List.dropWhile_suffix pyWs
          have hpre : (w.reverse.dropWhile pyWs).reverse <+: w := by
            refine List.reverse_suffix.mp ?_
            rw [List.reverse_reverse]
            exact hsuf
          obtain ⟨k, hk⟩ := hpre
          cases htl : (w.reverse.dropWhile pyWs).reverse with
          | nil =>
            exfalso
            apply he
            have h4 : w.reverse.dropWhile pyWs = [] := by
              have h5 := congrArg List.reverse htl
              simpa using h5
            rw [h4]
            simp
          | cons tc t2 =>
            refine Or.inr ⟨tc, t2, rfl, ?_⟩
            rw [htl, hwc] at hk
            have h6 : tc = wc := by
              simp only [List.cons_append] at hk
              injection hk with h7 h8
            rw [h6]
            exact hwcw

lemma timeTok2_none2 (a b : Char) (r : Str) (hb : b.isDigit = false) :
    timeTok2 (a :: b :: r) = none := by
  unfold timeTok2
  cases r with
  | nil => rfl
  | cons c r2 =>
    cases r2 with
    | nil => rfl
    | cons d r3 =>
      cases r3 with
      | nil => rfl
      | cons e r4 => simp [hb]

lemma timeTok2_none3 (a b c : Char) (r : Str) (hc : ¬ c = ':') :
    timeTok2 (a :: b :: c :: r) = none := by
  unfold timeTok2
  cases r with
  | nil => rfl
  | cons d r2 =>
    cases r2 with
    | nil => rfl
    | cons e r3 => simp [hc]

lemma timeTok2_none4 (a b c d : Char) (r : Str) (hd : d.isDigit = false) :
    timeTok2 (a :: b :: c :: d :: r) = none := by
  unfold timeTok2
  cases r with
  | nil => rfl
  | cons e r2 => simp [hd]

lemma timeTok1_none1 (a : Char) (r : Str) (ha : a.isDigit = false) :
    timeTok1 (a :: r) = none := by
  unfold timeTok1
  cases r with
  | nil => rfl
  | cons c r2 =>
    cases r2 with
    | nil => rfl
    | cons d r3 =>
      cases r3 with
      | nil => rfl
      | cons e r4 => simp [ha]

lemma timeTok1_none2 (a b : Char) (r : Str) (hb : ¬ b = ':') :
    timeTok1 (a :: b :: r) = none := by
  unfold timeTok1
  cases r with
  | nil => rfl
  | cons c r2 =>
    cases r2 with
    | nil => rfl
    | cons d r3 => simp [hb]

lemma timeTok1_none3 (a b c : Char) (r : Str) (hc : c.isDigit = false) :
    timeTok1 (a :: b :: c :: r) = none := by
  unfold timeTok1
  cases r with
  | nil => rfl
  | cons d r2 => simp [hc]

lemma timeTok1_none4 (a b c d : Char) (r : Str) (hd : d.isDigit = false) :
    timeTok1 (a :: b :: c :: d :: r) = none := by
  unfold timeTok1
  simp [hd]

lemma valueChar_false_parts {c : Char} (h : valueChar c = false) :
    c.isDigit = false ∧ ¬ c = ':' ∧ ¬ c = '-' := by
  simpa [valueChar, and_assoc] using h

lemma validValue_false_bad (v : Str) (hvne : v ≠ []) (hv : validValue v = false) :
    ∃ x ∈ v, valueChar x = false := by
  unfold validValue at hv
  rcases Bool.and_eq_false_iff.mp hv with h1 | h1
  · exact absurd (by simpa using h1) hvne
  · have h2 : ¬ (v.all valueChar = true) := by simp [h1]
    rw [List.all_eq_true] at h2
    push_neg at h2
    obtain ⟨x, hx, hxv⟩ := h2
    exact ⟨x, hx, by simpa using hxv⟩

lemma inlineGroup_none_of_badtok (v t : Str)
    (hv : validValue v = false) (hvne : v ≠ [])
    (hall : ∀ c ∈ v, pyWs c = false)
    (ht : t = [] ∨ ∃ c t2, t = c :: t2 ∧ pyWs c = true) :
    inlineGroup (v ++ t) = none := by
  rcases v with _ | ⟨a, _ | ⟨b, _ | ⟨c, _ | ⟨d, _ | ⟨e, _ | ⟨f, vr⟩⟩⟩⟩⟩⟩
  · exact absurd rfl hvne
  · rcases ht with rfl | ⟨c0, t2, rfl, hc0⟩
    · simp [inlineGroup, timeTok2, timeTok1]
    · simp [inlineGroup, timeTok2_none2 a c0 t2 (pyWs_not_digit hc0),
        timeTok1_none2 a c0 t2 (pyWs_ne_colon hc0)]
  · rcases ht with rfl | ⟨c0, t2, rfl, hc0⟩
    · simp [inlineGroup, timeTok2, timeTok1]
    · simp [inlineGroup, timeTok2_none3 a b c0 t2 (pyWs_ne_colon hc0),
        timeTok1_none3 a b c0 t2 (pyWs_not_digit hc0)]
  · rcases ht with rfl | ⟨c0, t2, rfl, hc0⟩
    · simp [inlineGroup, timeTok2, timeTok1]
    · simp [inlineGroup, timeTok2_none4 a b c c0 t2 (pyWs_not_digit hc0),
        timeTok1_none4 a b c c0 t2 (pyWs_not_digit hc0)]
  · obtain ⟨x, hx, hxv⟩ := validValue_false_bad _ (by simp) hv
    obtain ⟨hxd, hxc, hxh⟩ := valueChar_false_parts hxv
    have hx4 : x = a ∨ x = b ∨ x = c ∨ x = d := by simpa using hx
    rcases ht with rfl | ⟨c0, t2, rfl, hc0⟩
    · rcases hx4 with rfl | rfl | rfl | rfl
      · simp [inlineGroup, timeTok2, timeTok1, hxd]
      · simp [inlineGroup, timeTok2, timeTok1, hxc]
      · simp [inlineGroup, timeTok2, timeTok1, hxd]
      · simp [inlineGroup, timeTok2, timeTok1, hxd]
    · have htk2 : timeTok2 (a :: b :: c :: d :: c0 :: t2) = none := by
        simp [timeTok2, pyWs_not_digit hc0]
      rcases hx4 with rfl | rfl | rfl | rfl
      · simp [inlineGroup, htk2, timeTok1, hxd]
      · simp [inlineGroup, htk2, timeTok1, hxc]
      · simp [inlineGroup, htk2, timeTok1, hxd]
      · simp [inlineGroup, htk2, timeTok1, hxd]
  · obtain ⟨x, hx, hxv⟩ := validValue_false_bad _ (by simp) hv
    obtain ⟨hxd, hxc, hxh⟩ := valueChar_false_parts hxv
    have hx5 : x = a ∨ x = b ∨ x = c ∨ x = d ∨ x = e := by simpa using hx
    have hews : pyWs e = false := hall e (by simp)
    have htk2 : timeTok2 (a :: b :: c :: d :: e :: t) = none := by
      rcases hx5 with rfl | rfl | rfl | rfl | rfl
      · simp [timeTok2, hxd]
      · simp [timeTok2, hxd]
      · simp [timeTok2, hxc]
      · simp [timeTok2, hxd]
      · simp [timeTok2, hxd]
    by_cases hcond : (a.isDigit && decide (b = ':') && c.isDigit && d.isDigit) = true
    · have htk1 : timeTok1 (a :: b :: c :: d :: e :: t)
          = some ([a, b, c, d], e :: t) := by
        simp [timeTok1, hcond]
      simp [inlineGroup, htk2, htk1, boundaryWs, hews, List.cons_append]
    · have htk1 : timeTok1 (a :: b :: c :: d :: e :: t) = none := by
        simp only [timeTok1]
        rw [if_neg hcond]
      simp [inlineGroup, htk2, htk1, List.cons_append]
  · have hews : pyWs e = false := hall e (by simp)
    have hfws : pyWs f = false := hall f (by simp)
    have hshape : (a :: b :: c :: d :: e :: f :: vr) ++ t
        = a :: b :: c :: d :: e :: f :: (vr ++ t) := by simp
    rw [hshape]
    by_cases h2c : (a.isDigit && b.isDigit && decide (c = ':') && d.isDigit && e.isDigit) = true
    · have hbdig : b.isDigit = true := by
        simp only [Bool.and_eq_true] at h2c
        exact h2c.1.1.1.2
      have htk2 : timeTok2 (a :: b :: c :: d :: e :: f :: (vr ++ t))
          = some ([a, b, c, d, e], f :: (vr ++ t)) := by
        simp [timeTok2, h2c]
      have hbc : ¬ b = ':' := by
        intro hbe
        subst hbe
        exact absurd hbdig (by decide)
      simp [inlineGroup, htk2, boundaryWs, hfws, timeTok1_none2 _ _ _ hbc]
    · have htk2 : timeTok2 (a :: b :: c :: d :: e :: f :: (vr ++ t)) = none := by
        simp only [timeTok2]
        rw [if_neg h2c]
      by_cases h1c : (a.isDigit && decide (b = ':') && c.isDigit && d.isDigit) = true
      · have htk1 : timeTok1 (a :: b :: c :: d :: e :: f :: (vr ++ t))
            = some ([a, b, c, d], e :: f :: (vr ++ t)) := by
          simp [timeTok1, h1c]
        simp [inlineGroup, htk2, htk1, boundaryWs, hews]
      · have htk1 : timeTok1 (a :: b :: c :: d :: e :: f :: (vr ++ t)) = none := by
          simp only [timeTok1]
          rw [if_neg h1c]
        simp [inlineGroup, htk2, htk1]

lemma infix_joinSegs (s : Str) (l : List Str) (hs : s ∈ l) : s <:+: joinSegs l := by
  induction l with
  | nil => cases hs
  | cons a l ih =>
    rcases List.mem_cons.mp hs with rfl | hs2
    · cases l with
      | nil => simp [joinSegs]
      | cons b l2 => exact ⟨[], ' ' :: joinSegs (b :: l2), by simp [joinSegs]⟩
    · cases l with
      | nil => cases hs2
      | cons b l2 =>
        have h3 := ih hs2
        have h4 : joinSegs (b :: l2) <:+: joinSegs (a :: b :: l2) :=
          ⟨a ++ [' '], [], by simp [joinSegs]⟩
        exact h3.trans h4

lemma mem_joinSp_infix (s : Str) (segs : List Str) (hs : s ∈ segs) (hne : s ≠ []) :
    s <:+: joinSp segs := by
  have h2 : s ∈ segs.filter (fun x => !x.isEmpty) :=
    List.mem_filter.mpr ⟨hs, by simpa using hne⟩
  exact infix_joinSegs _ _ h2

/-- Claim C6: when a marker glyph is followed by a token that is not made
solely of digits, colons and hyphens, that loop step records nothing under the
glyph's key and leaves the following part untouched (for every loop state);
the token survives as a prefix of the stripped following segment; and on a
line whose first marker is such an occurrence, the line still parses and the
token appears in the cleaned task text. -/
theorem bad_marker_token_left_in_text (p q : Str) (g : Char) (v : Str)
    (hp : delimGlyph p = some g) (hq : firstTok q = some v)
    (hv : validValue v = false) (hqd : delimGlyph q = none) :
    (∀ (rest : List Str) (e : Elems) (acc : List Str),
      markerLoop (p :: q :: rest) e acc = markerLoop rest e (acc ++ [strip q]))
    ∧ v <+: strip q
    ∧ (∀ (line0 dft p0 : Str) (rest : List Str),
        delimGlyph p0 = none →
        boxMark.isPrefixOf (cleanedLine line0) = true →
        splitMarkers (contentOf line0) = p0 :: p :: q :: rest →
        ∃ r, parse_task_line line0 dft = some r ∧ v <:+: r.task) := by
  obtain ⟨hvne, hmem, tt, htt, httw⟩ := firstTok_parts q v hq
  have hstep : ∀ (rest : List Str) (e : Elems) (acc : List Str),
      markerLoop (p :: q :: rest) e acc = markerLoop rest e (acc ++ [strip q]) := by
    intro rest e acc
    rw [markerLoop_delim_badtok p q rest g v e acc hp hq hv,
      markerLoop_text_step q rest e acc hqd]
  have hpre : v <+: strip q := ⟨tt, htt.symm⟩
  have hsqne : strip q ≠ [] := by
    intro he
    rw [htt] at he
    exact hvne (List.append_eq_nil.mp he).1
  refine ⟨hstep, hpre, ?_⟩
  intro line0 dft p0 rest hp0 hbox hsplit
  have hloop : loopOut line0
      = markerLoop rest ⟨none, none, none⟩ [strip p0, strip q] := by
    unfold loopOut
    rw [hsplit, markerLoop_text_step p0 (p :: q :: rest) ⟨none, none, none⟩ [] hp0]
    rw [hstep]
    simp
  obtain ⟨b, hb⟩ :=
    markerLoopF_acc_prefix rest.length rest ⟨none, none, none⟩ [strip p0, strip q]
  have hsegs : (loopOut line0).2 = strip p0 :: strip q :: b := by
    rw [hloop]
    simpa [markerLoop] using hb
  have happ : ∃ y2, (inlineOut line0).1 = y2 :: strip q :: b := by
    unfold inlineOut applyInline
    rw [hsegs]
    cases hig : inlineGroup (strip p0) with
    | none => exact ⟨strip p0, by simp [hig]⟩
    | some pr =>
      cases pr with
      | mk tm g0 => exact ⟨strip (replaceFirst g0 (strip p0)), by simp [hig]⟩
  obtain ⟨y2, hy2⟩ := happ
  have hclean : strip q <:+: taskClean line0 := by
    unfold taskClean
    refine mem_joinSp_infix _ _ ?_ hsqne
    rw [hy2]
    exact List.mem_cons_of_mem _ (List.mem_cons_self _ _)
  have hne2 : ¬ (taskClean line0).isEmpty = true := by
    intro he
    have h0 : taskClean line0 = [] := by simpa using he
    rcases hclean with ⟨s1, t1, hs1⟩
    rw [h0] at hs1
    have := List.append_eq_nil.mp hs1
    exact hsqne ((List.append_eq_nil.mp this.1).2)
  refine ⟨⟨taskClean line0, finalTime (parsedClock line0) (parsedInline line0) dft,
      validDateOpt (loopOut line0).1.hourglass,
      validDateOpt (loopOut line0).1.calendar⟩, ?_, ?_⟩
  · unfold parse_task_line
    rw [if_pos hbox, if_neg hne2]
  · exact (List.IsPrefix.isInfix hpre).trans hclean

theorem bad_marker_token_left_in_text_witness :
    (delimGlyph ("⏰ ".data) = some '⏰'
      ∧ firstTok ("soon call mom".data) = some ("soon".data)
      ∧ validValue ("soon".data) = false
      ∧ delimGlyph ("soon call mom".data) = none
      ∧ delimGlyph ([] : Str) = none
      ∧ boxMark.isPrefixOf (cleanedLine ("- [ ] ⏰ soon call mom".data)) = true
      ∧ splitMarkers (contentOf ("- [ ] ⏰ soon call mom".data))
          = [[], "⏰ ".data, "soon call mom".data])
    ∧ ∃ r, parse_task_line ("- [ ] ⏰ soon call mom".data) ("08:00".data) = some r
        ∧ ("soon".data) <:+: r.task := by
  refine ⟨⟨by decide, by decide, by decide, by decide, by decide, by decide, by decide⟩, ?_⟩
  exact (bad_marker_token_left_in_text ("⏰ ".data) ("soon call mom".data) '⏰'
      ("soon".data) (by decide) (by decide) (by decide) (by decide)).2.2
    ("- [ ] ⏰ soon call mom".data) ("08:00".data) [] [] (by decide) (by decide) (by decide)
